import Mathlib

/-!
# Lightsail firewall command: port parsing and port opening

A shallow embedding of `lightsail/firewall.go` (functions `parsePortRange` and
`openPorts`) together with the parts of the Go standard library they call
(`strings.Contains`, `strings.Split`, `strconv.Atoi`, `fmt.Errorf`).

Conventions.
* A Go `string` is a `List Char`.  The code only inspects the ASCII bytes
  `-`, `,`, `+` and `0`..`9`; in UTF-8 none of these occurs inside the encoding
  of another character, so working on characters and working on bytes agree.
  (`Atoi` chooses its fast path by the length in bytes; a string with fewer than
  19 characters has at most 18 digits, on which both paths of `Atoi` agree.)
* Go `int` is 64 bits wide (`strconv.IntSize = 64`); `int32(x)` is truncation to
  the low 32 bits read as two's complement.
* A run-time panic (slice index out of range) is an explicit result.
* The Lightsail client is an arbitrary state machine; every call made on it is
  recorded in an event list.
-/

namespace Lightsail

/-- A Go string. -/
abbrev Str := List Char

/-! ## `strings` -/

/-- Go `strings.Contains(s, sep)` for a one-byte separator. -/
def stringsContains (s : Str) (sep : Char) : Bool :=
  s.contains sep

/-- Go `strings.Split(s, sep)` for a one-byte separator: every piece between
    consecutive separators, so `Count(s, sep) + 1` pieces. -/
def stringsSplit : Str → Char → List Str
  | [], _ => [[]]
  | c :: cs, sep =>
    if c = sep then [] :: stringsSplit cs sep
    else
      match stringsSplit cs sep with
      | [] => [[c]]
      | p :: ps => (c :: p) :: ps

/-! ## `strconv` -/

/-- The two sentinel errors of `strconv` (`ErrSyntax`, `ErrRange`). -/
inductive NumError where
  | errSyntax
  | errRange
  deriving DecidableEq, Repr

/-- Go `strconv.IntSize`. -/
def intSize : Nat := 64

/-- Go `maxUint64`. -/
def maxUint64 : Nat := 2 ^ 64 - 1

/-- The byte test `'0' <= c && c <= '9'`. -/
def isDigitByte (c : Char) : Bool :=
  decide (48 ≤ c.toNat) && decide (c.toNat ≤ 57)

/-- The digit value `c - '0'`. -/
def digitVal (c : Char) : Nat :=
  c.toNat - 48

/-- The loop of `strconv.ParseUint(s, 10, 64)` with accumulator `n`
    (`cutoff = maxUint64/10 + 1`, `maxVal = 1<<64 - 1`, arithmetic in `uint64`).
    A byte that is not a decimal digit is a syntax error; an overflow returns
    `maxVal` with a range error at once, without reading the rest. -/
def parseUintLoop : Str → Nat → Nat × Option NumError
  | [], n => (n, none)
  | c :: cs, n =>
    if !isDigitByte c then (0, some .errSyntax)
    else if n ≥ maxUint64 / 10 + 1 then (maxUint64, some .errRange)
    else
      let n10 := (n * 10) % 2 ^ 64
      let n1 := (n10 + digitVal c) % 2 ^ 64
      if n1 < n10 ∨ n1 > maxUint64 then (maxUint64, some .errRange)
      else parseUintLoop cs n1

/-- Go `strconv.ParseUint(s, 10, 0)`. -/
def parseUint (s : Str) : Nat × Option NumError :=
  if s = [] then (0, some .errSyntax) else parseUintLoop s 0

/-- Go `strconv.ParseInt(s, 10, 0)`: the result is an `int64`. -/
def parseInt (s : Str) : Int × Option NumError :=
  match s with
  | [] => (0, some .errSyntax)
  | c :: cs =>
    let neg := decide (c = '-')
    let body := if c = '+' ∨ c = '-' then cs else c :: cs
    match parseUint body with
    | (_, some .errSyntax) => (0, some .errSyntax)
    | (un, _) =>
      let cutoff : Nat := 2 ^ (intSize - 1)
      if !neg ∧ un ≥ cutoff then (((cutoff - 1 : Nat) : Int), some .errRange)
      else if neg ∧ un > cutoff then (-((cutoff : Nat) : Int), some .errRange)
      else if neg then (-(un : Int), none) else ((un : Int), none)

/-- The digit loop of the fast path of `strconv.Atoi`. -/
def atoiFastLoop : Str → Int → Option Int
  | [], n => some n
  | c :: cs, n =>
    if !isDigitByte c then none else atoiFastLoop cs (n * 10 + (digitVal c : Int))

/-- Go `strconv.Atoi(s)` on a 64-bit platform: value and error.  Strings of 1 to
    18 bytes take the fast path, everything else goes through `ParseInt`. -/
def atoi (s : Str) : Int × Option NumError :=
  if 0 < s.length ∧ s.length < 19 then
    match s with
    | [] => (0, some .errSyntax)
    | c :: cs =>
      let body := if c = '-' ∨ c = '+' then cs else c :: cs
      if body.length < 1 then (0, some .errSyntax)
      else
        match atoiFastLoop body 0 with
        | none => (0, some .errSyntax)
        | some n => if c = '-' then (-n, none) else (n, none)
  else parseInt s

/-- Go conversion `int32(x)` of an `int`: keep the low 32 bits, two's complement. -/
def toInt32 (x : Int) : Int :=
  (x + 2 ^ 31) % 2 ^ 32 - 2 ^ 31

/-! ## Errors -/

/-- A Go `error` value: one returned by the SDK client, or one built by
    `fmt.Errorf` with the verb `%w`, which keeps the wrapped error. -/
inductive GoError where
  | sdk (text : Str)
  | wrapped (text : Str) (cause : GoError)
  deriving DecidableEq, Repr

/-- Go `err.Error()`. -/
def GoError.Error : GoError → Str
  | .sdk text => text
  | .wrapped text _ => text

/-- Go `errors.Unwrap(err)`. -/
def GoError.unwrap : GoError → Option GoError
  | .sdk _ => none
  | .wrapped _ cause => some cause

/-! ## `parsePortRange` -/

/-- A run-time panic of the Go program. -/
inductive Panic where
  | indexOutOfRange (index length : Nat)
  deriving DecidableEq, Repr

/-- The result of Go code that may panic. -/
inductive Result (α : Type) where
  | ok (val : α)
  | panic (p : Panic)
  deriving DecidableEq, Repr

/-- Go slice indexing `xs[i]`, which panics when `i` is out of range. -/
def index {α : Type} (xs : List α) (i : Nat) : Result α :=
  match xs[i]? with
  | some x => .ok x
  | none => .panic (.indexOutOfRange i xs.length)

/-- Source `parsePortRange(port string) ([]int32, error)`.  The `error` result is
    the second component; the errors of `strconv.Atoi` are discarded (`_`). -/
def parsePortRange (port : Str) : Result (List Int × Option GoError) :=
  if stringsContains port '-' then
    let parts := stringsSplit port '-'
    match index parts 0 with
    | .panic p => .panic p
    | .ok p0 =>
      let fromV := (atoi p0).1
      match index parts 1 with
      | .panic p => .panic p
      | .ok p1 =>
        let toV := (atoi p1).1
        .ok ([toInt32 fromV, toInt32 toV], none)
  else if stringsContains port ',' then
    let parts := stringsSplit port ','
    .ok (parts.map (fun p => toInt32 (atoi p).1), none)
  else
    .ok ([toInt32 (atoi port).1], none)

/-! ## The Lightsail client and `openPorts` -/

/-- SDK `types.NetworkProtocol`. -/
inductive NetworkProtocol where
  | tcp
  | all
  | udp
  | icmp
  deriving DecidableEq, Repr

/-- SDK `types.PortInfo` (the fields the code sets). -/
structure PortInfo where
  fromPort : Int
  toPort : Int
  protocol : NetworkProtocol
  deriving DecidableEq, Repr

/-- SDK `lightsail.OpenInstancePublicPortsInput`. -/
structure OpenInstancePublicPortsInput where
  instanceName : Str
  portInfo : PortInfo
  deriving DecidableEq, Repr

/-- The two operations of `*lightsail.Client` that `openPorts` uses, as a state
    machine over an arbitrary state `σ`.  `getInstances` answers with the `Name`
    pointer of every instance of the output (`none` is a nil pointer). -/
structure Client (σ : Type) where
  getInstances : σ → σ × Except GoError (List (Option Str))
  openInstancePublicPorts : σ → OpenInstancePublicPortsInput → σ × Option GoError

/-- A call made on the client, with the error it answered for an open-ports call. -/
inductive Event where
  | getInstances
  | openInstancePublicPorts (input : OpenInstancePublicPortsInput) (err : Option GoError)
  deriving DecidableEq, Repr

/-- How a piece of a loop ends: fall through to the next iteration, `return err`,
    or panic. -/
inductive Flow where
  | next
  | ret (err : GoError)
  | panic (p : Panic)
  deriving DecidableEq, Repr

/-- The execution of a piece of code: final client state, calls made, and flow. -/
structure Exec (σ : Type) where
  state : σ
  events : List Event
  flow : Flow

/-- The execution of `openPorts`: final client state, calls made, and the
    returned `error` (`none` is nil) unless the function panicked. -/
structure Run (σ : Type) where
  state : σ
  events : List Event
  outcome : Result (Option GoError)

/-- SDK `aws.ToString`: the empty string for a nil pointer. -/
def awsToString : Option Str → Str
  | some name => name
  | none => []

/-- The selector and port token `"all"`. -/
def all : Str := "all".toList

/-- The body of the inner loop of `openPorts` (source lines 78 to 109) for one
    `instance` and one `port`. -/
def openPortsBody {σ : Type} (client : Client σ) (s : σ) (inst port : Str) : Exec σ :=
  if port = all then
    let input : OpenInstancePublicPortsInput := ⟨inst, ⟨0, 65535, .all⟩⟩
    match client.openInstancePublicPorts s input with
    | (s1, some err) =>
      ⟨s1, [.openInstancePublicPorts input (some err)],
        .ret (.wrapped ("failed to open all ports for instance ".toList ++ inst ++ ": ".toList
          ++ err.Error) err)⟩
    | (s1, none) => ⟨s1, [.openInstancePublicPorts input none], .next⟩
  else
    match parsePortRange port with
    | .panic p => ⟨s, [], .panic p⟩
    | .ok (_, some err) =>
      ⟨s, [], .ret (.wrapped ("invalid port ".toList ++ port ++ " for instance ".toList ++ inst
        ++ ": ".toList ++ err.Error) err)⟩
    | .ok (portRange, none) =>
      match index portRange 0 with
      | .panic p => ⟨s, [], .panic p⟩
      | .ok fromPort =>
        match index portRange 1 with
        | .panic p => ⟨s, [], .panic p⟩
        | .ok toPort =>
          let input : OpenInstancePublicPortsInput := ⟨inst, ⟨fromPort, toPort, .tcp⟩⟩
          match client.openInstancePublicPorts s input with
          | (s1, some err) =>
            ⟨s1, [.openInstancePublicPorts input (some err)],
              .ret (.wrapped ("failed to open port ".toList ++ port ++ " for instance ".toList
                ++ inst ++ ": ".toList ++ err.Error) err)⟩
          | (s1, none) => ⟨s1, [.openInstancePublicPorts input none], .next⟩

/-- The inner loop `for _, port := range ports`. -/
def portsLoop {σ : Type} (client : Client σ) (inst : Str) : σ → List Str → Exec σ
  | s, [] => ⟨s, [], .next⟩
  | s, port :: rest =>
    let e := openPortsBody client s inst port
    match e.flow with
    | .next =>
      let e1 := portsLoop client inst e.state rest
      ⟨e1.state, e.events ++ e1.events, e1.flow⟩
    | _ => e

/-- The outer loop `for _, instance := range instances`. -/
def instancesLoop {σ : Type} (client : Client σ) (ports : List Str) : σ → List Str → Exec σ
  | s, [] => ⟨s, [], .next⟩
  | s, inst :: rest =>
    let e := portsLoop client inst s ports
    match e.flow with
    | .next =>
      let e1 := instancesLoop client ports e.state rest
      ⟨e1.state, e.events ++ e1.events, e1.flow⟩
    | _ => e

/-- The end of `openPorts` after the loops: `return nil` when they fall through. -/
def finish {σ : Type} (before : List Event) (e : Exec σ) : Run σ :=
  match e.flow with
  | .next => ⟨e.state, before ++ e.events, .ok none⟩
  | .ret err => ⟨e.state, before ++ e.events, .ok (some err)⟩
  | .panic p => ⟨e.state, before ++ e.events, .panic p⟩

/-- The first part of `openPorts` (source lines 60 to 73): the names of the
    instances to work on, or the wrapped error of the list-instances call. -/
def resolveInstances {σ : Type} (client : Client σ) (s : σ) (instanceNames : List Str) :
    σ × List Event × Except GoError (List Str) :=
  if instanceNames.length = 1 ∧ instanceNames[0]? = some all then
    match client.getInstances s with
    | (s1, .error err) =>
      (s1, [.getInstances],
        .error (.wrapped ("failed to get instances: ".toList ++ err.Error) err))
    | (s1, .ok output) => (s1, [.getInstances], .ok (output.map awsToString))
  else
    (s, [], .ok instanceNames)

/-- Source `openPorts(client, instanceNames, ports) error`, run from client
    state `s`. -/
def openPorts {σ : Type} (client : Client σ) (s : σ) (instanceNames ports : List Str) : Run σ :=
  match resolveInstances client s instanceNames with
  | (s1, before, .error err) => ⟨s1, before, .ok (some err)⟩
  | (s1, before, .ok instances) => finish before (instancesLoop client ports s1 instances)

/-- The open-ports calls of an event list, in order. -/
def openCalls : List Event → List (OpenInstancePublicPortsInput × Option GoError)
  | [] => []
  | .getInstances :: es => openCalls es
  | .openInstancePublicPorts input err :: es => (input, err) :: openCalls es

/-- The number of list-instances calls of an event list. -/
def listCalls : List Event → Nat
  | [] => 0
  | .getInstances :: es => listCalls es + 1
  | .openInstancePublicPorts _ _ :: es => listCalls es

/-! ## Clients used in the examples -/

/-- A client on which every call succeeds; it lists the instances `names`. -/
def okClient (names : List (Option Str)) : Client Unit where
  getInstances := fun _ => ((), .ok names)
  openInstancePublicPorts := fun _ _ => ((), none)

/-- A client whose state counts the open-ports calls made so far and whose call
    number `k` (counting from 1) fails with the error `boom`; it lists `names`. -/
def failingClient (names : List (Option Str)) (k : Nat) : Client Nat where
  getInstances := fun n => (n, .ok names)
  openInstancePublicPorts := fun n _ =>
    (n + 1, if n + 1 = k then some (.sdk "boom".toList) else none)

/-! ## Formatting -/

/-- The character of a decimal digit. -/
def digitChar : Nat → Char
  | 0 => '0'
  | 1 => '1'
  | 2 => '2'
  | 3 => '3'
  | 4 => '4'
  | 5 => '5'
  | 6 => '6'
  | 7 => '7'
  | 8 => '8'
  | _ => '9'

/-- The digits of `u` in base 10, most significant first, in front of `acc`:
    the result of the loop of `strconv.formatBits`, which fills its buffer from
    the right.  `fuel` bounds the number of digits. -/
def formatBits : Nat → Nat → Str → Str
  | 0, _, acc => acc
  | fuel + 1, u, acc =>
    if u ≥ 10 then formatBits fuel (u / 10) (digitChar (u % 10) :: acc)
    else digitChar u :: acc

/-- Go `strconv.Itoa(i)` for an `int32` value: the shortest decimal form, with a
    leading `-` for a negative number. -/
def itoa (i : Int) : Str :=
  if i < 0 then '-' :: formatBits 10 i.natAbs [] else formatBits 10 i.natAbs []

/-! ## Vocabulary of the statements -/

/-- The value of a string of decimal digits read from accumulator `n`. -/
def decimalFrom (s : Str) (n : Nat) : Nat :=
  s.foldl (fun acc c => acc * 10 + digitVal c) n

/-- The value of a string of decimal digits. -/
def decimalValue (s : Str) : Nat :=
  decimalFrom s 0

/-- A plain decimal number: a nonempty string of the digits `0`..`9`
    (leading zeros allowed, no sign). -/
def IsDecimal (s : Str) : Prop :=
  s ≠ [] ∧ ∀ c ∈ s, isDigitByte c = true

instance (s : Str) : Decidable (IsDecimal s) := by
  unfold IsDecimal; infer_instance

/-- A string without its leading `+`, if it has one. -/
def unsignedPart : Str → Str
  | [] => []
  | c :: cs => if c = '+' then cs else c :: cs

/-- A plain decimal port number: decimal digits, after an optional `+`, with
    value `n` in `0..65535`.  Such a string has no `-` and no `,`. -/
def IsPort (s : Str) (n : Nat) : Prop :=
  IsDecimal (unsignedPart s) ∧ decimalValue (unsignedPart s) = n ∧ n ≤ 65535

instance (s : Str) (n : Nat) : Decidable (IsPort s n) := by
  unfold IsPort; infer_instance

/-- The tokens of a port string that `parsePortRange` hands to `Atoi`: the two
    range endpoints, the comma elements, or the whole string. -/
def portTokens (port : Str) : List Str :=
  if '-' ∈ port then (stringsSplit port '-').take 2
  else if ',' ∈ port then stringsSplit port ','
  else [port]

/-- The pairs (instance, port token) in the order in which the nested loops of
    `openPorts` visit them: instances outer, port tokens inner. -/
def iterations : List Str → List Str → List (Str × Str)
  | [], _ => []
  | inst :: rest, ports => ports.map (fun port => (inst, port)) ++ iterations rest ports

/-- One loop over a list of (instance, port token) pairs, running the body of the
    inner loop of `openPorts` on each. -/
def pairsLoop {σ : Type} (client : Client σ) : σ → List (Str × Str) → Exec σ
  | s, [] => ⟨s, [], .next⟩
  | s, (inst, port) :: rest =>
    let e := openPortsBody client s inst port
    match e.flow with
    | .next =>
      let e1 := pairsLoop client e.state rest
      ⟨e1.state, e.events ++ e1.events, e1.flow⟩
    | _ => e

/-- The request the loop body builds for an instance and a port token, if it gets
    that far: the full range with protocol ALL for `"all"`, else the first two
    values of the parsed token with protocol TCP. -/
def requestFor (inst port : Str) : Option OpenInstancePublicPortsInput :=
  if port = all then some ⟨inst, ⟨0, 65535, .all⟩⟩
  else
    match (portTokens port).map (fun t => toInt32 (atoi t).1) with
    | fromPort :: toPort :: _ => some ⟨inst, ⟨fromPort, toPort, .tcp⟩⟩
    | _ => none

/-- The text of the error the loop body returns when its call fails with `cause`. -/
def errorText (inst port : Str) (cause : GoError) : Str :=
  if port = all then
    "failed to open all ports for instance ".toList ++ inst ++ ": ".toList ++ cause.Error
  else
    "failed to open port ".toList ++ port ++ " for instance ".toList ++ inst ++ ": ".toList
      ++ cause.Error

/-- The text `text` contains `part`. -/
def Mentions (text part : Str) : Prop :=
  ∃ a b, text = a ++ part ++ b

/-- A bare token: not `"all"`, and with neither `-` nor `,` in it. -/
def IsBare (port : Str) : Prop :=
  port ≠ all ∧ '-' ∉ port ∧ ',' ∉ port

instance (port : Str) : Decidable (IsBare port) := by
  unfold IsBare; infer_instance

/-! ## Lemmas on `strings.Split` -/

theorem stringsContains_iff (s : Str) (sep : Char) : stringsContains s sep = true ↔ sep ∈ s := by
  simp [stringsContains]

theorem stringsSplit_ne_nil (s : Str) (sep : Char) : stringsSplit s sep ≠ [] := by
  cases s with
  | nil => simp [stringsSplit]
  | cons c cs =>
    simp only [stringsSplit]
    split
    · simp
    · split <;> simp

theorem stringsSplit_of_not_mem (s : Str) (sep : Char) (h : sep ∉ s) :
    stringsSplit s sep = [s] := by
  induction s with
  | nil => simp [stringsSplit]
  | cons c cs ih =>
    have hc : c ≠ sep := fun e => h (by simp [e])
    have hcs : sep ∉ cs := fun e => h (by simp [e])
    simp [stringsSplit, hc, ih hcs]

theorem stringsSplit_append (a b : Str) (sep : Char) (h : sep ∉ a) :
    stringsSplit (a ++ sep :: b) sep = a :: stringsSplit b sep := by
  induction a with
  | nil => simp [stringsSplit]
  | cons c cs ih =>
    have hc : c ≠ sep := fun e => h (by simp [e])
    have hcs : sep ∉ cs := fun e => h (by simp [e])
    simp [stringsSplit, hc, ih hcs]

/-- A string that contains the separator splits into at least two pieces. -/
theorem stringsSplit_of_mem (s : Str) (sep : Char) (h : sep ∈ s) :
    ∃ p0 p1 rest, stringsSplit s sep = p0 :: p1 :: rest := by
  induction s with
  | nil => simp at h
  | cons c cs ih =>
    by_cases hc : c = sep
    · obtain ⟨q, qs, hq⟩ := List.exists_cons_of_ne_nil (stringsSplit_ne_nil cs sep)
      exact ⟨[], q, qs, by simp [stringsSplit, hc, hq]⟩
    · have hcs : sep ∈ cs := by
        rcases List.mem_cons.1 h with e | e
        · exact absurd e.symm hc
        · exact e
      obtain ⟨p0, p1, rest, hp⟩ := ih hcs
      exact ⟨c :: p0, p1, rest, by simp [stringsSplit, hc, hp]⟩

/-- Every character of a piece is a character of the string, and no piece
    contains the separator. -/
theorem mem_of_mem_stringsSplit (s : Str) (sep : Char) :
    ∀ p ∈ stringsSplit s sep, (∀ c ∈ p, c ∈ s) ∧ sep ∉ p := by
  induction s with
  | nil => simp [stringsSplit]
  | cons c cs ih =>
    intro p hp
    by_cases hc : c = sep
    · simp only [stringsSplit, hc, if_true, List.mem_cons] at hp
      rcases hp with e | e
      · subst e; simp
      · obtain ⟨h1, h2⟩ := ih p e
        exact ⟨fun d hd => List.mem_cons_of_mem _ (h1 d hd), h2⟩
    · obtain ⟨q, qs, hq⟩ := List.exists_cons_of_ne_nil (stringsSplit_ne_nil cs sep)
      simp only [stringsSplit, hc, if_false, hq, List.mem_cons] at hp
      have hqm := ih q (by simp [hq])
      rcases hp with e | e
      · subst e
        refine ⟨fun d hd => ?_, ?_⟩
        · rcases List.mem_cons.1 hd with e1 | e1
          · simp [e1]
          · exact List.mem_cons_of_mem _ (hqm.1 d e1)
        · intro hm
          rcases List.mem_cons.1 hm with e1 | e1
          · exact hc e1.symm
          · exact hqm.2 e1
      · obtain ⟨h1, h2⟩ := ih p (by simp [hq, e])
        exact ⟨fun d hd => List.mem_cons_of_mem _ (h1 d hd), h2⟩

/-! ## Lemmas on `strconv.Atoi` -/

/-- The model of `Atoi` on the inputs of the examples of the Go documentation
    and on the edges of the `int64` range. -/
theorem atoi_examples :
    atoi "80".toList = (80, none) ∧
    atoi "+80".toList = (80, none) ∧
    atoi "-80".toList = (-80, none) ∧
    atoi "0080".toList = (80, none) ∧
    atoi "".toList = (0, some .errSyntax) ∧
    atoi "+".toList = (0, some .errSyntax) ∧
    atoi "8x".toList = (0, some .errSyntax) ∧
    atoi " 80".toList = (0, some .errSyntax) ∧
    atoi "9223372036854775807".toList = (9223372036854775807, none) ∧
    atoi "9223372036854775808".toList = (9223372036854775807, some .errRange) ∧
    atoi "-9223372036854775808".toList = (-9223372036854775808, none) ∧
    atoi "-9223372036854775809".toList = (-9223372036854775808, some .errRange) ∧
    atoi "99999999999999999999x".toList = (9223372036854775807, some .errRange) ∧
    atoi "1234567890123456789x".toList = (0, some .errSyntax) := by
  decide

theorem digit_ne_sign (c : Char) (h : isDigitByte c = true) :
    c ≠ '-' ∧ c ≠ '+' ∧ c ≠ ',' := by
  refine ⟨?_, ?_, ?_⟩ <;> (intro e; subst e; revert h; decide)

theorem decimalFrom_cons (c : Char) (cs : Str) (n : Nat) :
    decimalFrom (c :: cs) n = decimalFrom cs (n * 10 + digitVal c) := rfl

theorem le_decimalFrom (s : Str) : ∀ n, n ≤ decimalFrom s n := by
  induction s with
  | nil => intro n; exact Nat.le_refl n
  | cons c cs ih =>
    intro n
    rw [decimalFrom_cons]
    exact Nat.le_trans (by omega) (ih _)

/-- On digits whose value fits `uint64` the loop of `ParseUint` computes the value. -/
theorem parseUintLoop_digits (s : Str) :
    ∀ n, (∀ c ∈ s, isDigitByte c = true) → decimalFrom s n < 2 ^ 64 →
      parseUintLoop s n = (decimalFrom s n, none) := by
  induction s with
  | nil => intro n _ _; rfl
  | cons c cs ih =>
    intro n hd hv
    rw [decimalFrom_cons] at hv
    have hc : isDigitByte c = true := hd c (by simp)
    have hle := le_decimalFrom cs (n * 10 + digitVal c)
    have h1 : n * 10 + digitVal c < 18446744073709551616 := by
      have : (2 : Nat) ^ 64 = 18446744073709551616 := by norm_num
      omega
    have hmod1 : n * 10 % 18446744073709551616 = n * 10 := Nat.mod_eq_of_lt (by omega)
    have hmod2 : (n * 10 + digitVal c) % 18446744073709551616 = n * 10 + digitVal c :=
      Nat.mod_eq_of_lt h1
    have hcut : ¬ n ≥ 18446744073709551615 / 10 + 1 := by omega
    have hov : ¬ (n * 10 + digitVal c < n * 10 ∨ n * 10 + digitVal c > 18446744073709551615) := by
      omega
    rw [decimalFrom_cons, ← ih (n * 10 + digitVal c) (fun d hdm => hd d (by simp [hdm])) hv]
    simp only [parseUintLoop, hc, maxUint64]
    norm_num
    simp only [hmod1, hmod2]
    rw [if_neg (by omega), if_neg (by omega)]

theorem atoiFastLoop_digits (s : Str) :
    ∀ n : Nat, (∀ c ∈ s, isDigitByte c = true) →
      atoiFastLoop s (n : Int) = some (((decimalFrom s n : Nat)) : Int) := by
  induction s with
  | nil => intro n _; rfl
  | cons c cs ih =>
    intro n hd
    have hc : isDigitByte c = true := hd c (by simp)
    have := ih (n * 10 + digitVal c) (fun d hdm => hd d (by simp [hdm]))
    simp only [atoiFastLoop, hc, decimalFrom_cons]
    push_cast at this
    simpa using this

/-- On a plain decimal number that fits `int64`, `Atoi` returns its value and no
    error, on the fast path and on the slow path alike. -/
theorem atoi_decimal (s : Str) (hs : IsDecimal s) (hv : decimalValue s < 2 ^ 63) :
    atoi s = (((decimalValue s : Nat) : Int), none) := by
  obtain ⟨hne, hd⟩ := hs
  cases s with
  | nil => exact absurd rfl hne
  | cons c cs =>
    have hc : isDigitByte c = true := hd c (by simp)
    obtain ⟨h1, h2, _⟩ := digit_ne_sign c hc
    unfold atoi
    split
    · have := atoiFastLoop_digits (c :: cs) 0 hd
      simp only [Nat.cast_zero] at this
      simp [h1, h2, this, decimalValue]
    · have hlt : decimalFrom (c :: cs) 0 < 2 ^ 64 := by
        have : decimalFrom (c :: cs) 0 < 2 ^ 63 := hv
        have e1 : (2 : Nat) ^ 63 = 9223372036854775808 := by norm_num
        have e2 : (2 : Nat) ^ 64 = 18446744073709551616 := by norm_num
        omega
      have hp := parseUintLoop_digits (c :: cs) 0 hd hlt
      have hv2 : decimalFrom (c :: cs) 0 < 9223372036854775808 := by
        have : decimalFrom (c :: cs) 0 < 2 ^ 63 := hv
        have e1 : (2 : Nat) ^ 63 = 9223372036854775808 := by norm_num
        omega
      simp [parseInt, parseUint, h1, h2, hp, intSize, decimalValue, hv2]

theorem toInt32_of_lt (n : Nat) (h : n < 2 ^ 31) : toInt32 (n : Int) = (n : Int) := by
  unfold toInt32
  have e1 : (2 : Int) ^ 31 = 2147483648 := by norm_num
  have e2 : (2 : Int) ^ 32 = 4294967296 := by norm_num
  have e3 : (2 : Nat) ^ 31 = 2147483648 := by norm_num
  rw [e1, e2]
  rw [e3] at h
  omega

/-- On decimal digits after a `+`, `Atoi` returns the value as well. -/
theorem atoi_plus (d : Str) (hs : IsDecimal d) (hv : decimalValue d < 2 ^ 63) :
    atoi ('+' :: d) = (((decimalValue d : Nat) : Int), none) := by
  obtain ⟨hne, hd⟩ := hs
  have hlen : ¬ d.length < 1 := by
    cases d with
    | nil => exact absurd rfl hne
    | cons c cs => simp
  unfold atoi
  split
  · have := atoiFastLoop_digits d 0 hd
    simp only [Nat.cast_zero] at this
    simp [hlen, this, decimalValue]
  · have hv2 : decimalFrom d 0 < 9223372036854775808 := by
      have : decimalFrom d 0 < 2 ^ 63 := hv
      have e1 : (2 : Nat) ^ 63 = 9223372036854775808 := by norm_num
      omega
    have hlt : decimalFrom d 0 < 2 ^ 64 := by
      have e2 : (2 : Nat) ^ 64 = 18446744073709551616 := by norm_num
      omega
    have hp := parseUintLoop_digits d 0 hd hlt
    simp [parseInt, parseUint, hne, hp, intSize, decimalValue, hv2]

theorem unsignedPart_cases (s : Str) :
    (∃ d, s = '+' :: d ∧ unsignedPart s = d) ∨ unsignedPart s = s := by
  cases s with
  | nil => exact Or.inr rfl
  | cons c cs =>
    by_cases h : c = '+'
    · exact Or.inl ⟨cs, by rw [h], by simp [unsignedPart, h]⟩
    · exact Or.inr (by simp [unsignedPart, h])

/-- A decimal port number is read by `Atoi` and kept by `int32`. -/
theorem toInt32_atoi_port (s : Str) (n : Nat) (h : IsPort s n) :
    toInt32 (atoi s).1 = (n : Int) := by
  obtain ⟨hd, hv, hn⟩ := h
  have e1 : (2 : Nat) ^ 63 = 9223372036854775808 := by norm_num
  have e3 : (2 : Nat) ^ 31 = 2147483648 := by norm_num
  rcases unsignedPart_cases s with ⟨d, hs, hu⟩ | hu
  · rw [hu] at hd hv
    rw [hs, atoi_plus d hd (by omega), hv]
    exact toInt32_of_lt n (by omega)
  · rw [hu] at hd hv
    rw [atoi_decimal s hd (by omega), hv]
    exact toInt32_of_lt n (by omega)

/-! ## Lemmas on formatting -/

theorem digitChar_spec (d : Nat) (h : d < 10) :
    isDigitByte (digitChar d) = true ∧ digitVal (digitChar d) = d := by
  interval_cases d <;> decide

theorem formatBits_acc (fuel : Nat) :
    ∀ u acc, formatBits fuel u acc = formatBits fuel u [] ++ acc := by
  induction fuel with
  | zero => intro u acc; rfl
  | succ f ih =>
    intro u acc
    simp only [formatBits]
    split
    · rw [ih (u / 10) (digitChar (u % 10) :: acc), ih (u / 10) [digitChar (u % 10)]]
      simp
    · simp

theorem decimalFrom_append (a b : Str) (n : Nat) :
    decimalFrom (a ++ b) n = decimalFrom b (decimalFrom a n) := by
  simp [decimalFrom]

/-- With enough fuel `formatBits` writes a plain decimal number of value `u`. -/
theorem formatBits_spec (fuel : Nat) :
    ∀ u, u < 10 ^ (fuel + 1) →
      IsDecimal (formatBits (fuel + 1) u []) ∧ decimalValue (formatBits (fuel + 1) u []) = u := by
  induction fuel with
  | zero =>
    intro u hu
    have hu10 : u < 10 := by simpa using hu
    obtain ⟨h1, h2⟩ := digitChar_spec u hu10
    have : ¬ u ≥ 10 := by omega
    simp [formatBits, this, IsDecimal, decimalValue, decimalFrom, h1, h2]
  | succ f ih =>
    intro u hu
    by_cases h10 : u ≥ 10
    · have hq : u / 10 < 10 ^ (f + 1) := by
        rw [Nat.div_lt_iff_lt_mul (by norm_num)]
        calc u < 10 ^ (f + 1 + 1) := hu
          _ = 10 ^ (f + 1) * 10 := by ring
      obtain ⟨⟨hne, hdig⟩, hval⟩ := ih (u / 10) hq
      obtain ⟨h1, h2⟩ := digitChar_spec (u % 10) (Nat.mod_lt _ (by norm_num))
      have hstep : formatBits (f + 1 + 1) u [] = formatBits (f + 1) (u / 10) [] ++ [digitChar (u % 10)] := by
        rw [← formatBits_acc]
        simp [formatBits, h10]
      rw [hstep]
      refine ⟨⟨by simp, ?_⟩, ?_⟩
      · intro c hc
        rcases List.mem_append.1 hc with e | e
        · exact hdig c e
        · simp at e; subst e; exact h1
      · unfold decimalValue at hval ⊢
        rw [decimalFrom_append, hval]
        simp only [decimalFrom, List.foldl, h2]
        omega
    · have hu10 : u < 10 := by omega
      obtain ⟨h1, h2⟩ := digitChar_spec u hu10
      simp [formatBits, h10, IsDecimal, decimalValue, decimalFrom, h1, h2]

/-- Formatting a port number gives a plain decimal port number of the same value. -/
theorem isPort_itoa (n : Nat) (h : n ≤ 65535) : IsPort (itoa (n : Int)) n := by
  have hn : ¬ ((n : Int) < 0) := by omega
  have hs := formatBits_spec 9 n (by norm_num; omega)
  simp only [itoa, hn, if_false, Int.natAbs_ofNat]
  have hu : unsignedPart (formatBits 10 n []) = formatBits 10 n [] := by
    rcases unsignedPart_cases (formatBits 10 n []) with ⟨d, hd, _⟩ | hu
    · have hplus : isDigitByte '+' = true := hs.1.2 '+' (by rw [hd]; simp)
      exact absurd hplus (by decide)
    · exact hu
  exact ⟨by rw [hu]; exact hs.1, by rw [hu]; exact hs.2, h⟩

/-! ## Lemmas on `parsePortRange` -/

theorem not_mem_of_isDecimal (s : Str) (h : IsDecimal s) : '-' ∉ s ∧ ',' ∉ s := by
  refine ⟨fun hm => ?_, fun hm => ?_⟩
  · exact (digit_ne_sign _ (h.2 _ hm)).1 rfl
  · exact (digit_ne_sign _ (h.2 _ hm)).2.2 rfl

theorem not_mem_of_isPort (s : Str) (n : Nat) (h : IsPort s n) : '-' ∉ s ∧ ',' ∉ s := by
  obtain ⟨h1, h2⟩ := not_mem_of_isDecimal _ h.1
  rcases unsignedPart_cases s with ⟨d, hs, hu⟩ | hu
  · rw [hu] at h1 h2
    rw [hs]
    refine ⟨fun hm => ?_, fun hm => ?_⟩
    · rcases List.mem_cons.1 hm with e | e
      · revert e; decide
      · exact h1 e
    · rcases List.mem_cons.1 hm with e | e
      · revert e; decide
      · exact h2 e
  · rw [hu] at h1 h2
    exact ⟨h1, h2⟩

/-- What the code returns for a plain decimal port number: a slice of length one. -/
theorem parsePortRange_single (s : Str) (n : Nat) (h : IsPort s n) :
    parsePortRange s = .ok ([(n : Int)], none) := by
  obtain ⟨h1, h2⟩ := not_mem_of_isPort s n h
  have c1 : stringsContains s '-' = false := by
    rw [Bool.eq_false_iff, Ne, stringsContains_iff]; exact h1
  have c2 : stringsContains s ',' = false := by
    rw [Bool.eq_false_iff, Ne, stringsContains_iff]; exact h2
  simp [parsePortRange, c1, c2, toInt32_atoi_port s n h]

theorem parsePortRange_range (a b : Str) (m n : Nat) (ha : IsPort a m) (hb : IsPort b n) :
    parsePortRange (a ++ '-' :: b) = .ok ([(m : Int), (n : Int)], none) := by
  have c1 : stringsContains (a ++ '-' :: b) '-' = true := by
    rw [stringsContains_iff]; simp
  have hsplit : stringsSplit (a ++ '-' :: b) '-' = [a, b] := by
    rw [stringsSplit_append a b '-' (not_mem_of_isPort a m ha).1,
      stringsSplit_of_not_mem b '-' (not_mem_of_isPort b n hb).1]
  simp [parsePortRange, c1, hsplit, index, toInt32_atoi_port a m ha, toInt32_atoi_port b n hb]

/-- Whatever the string, `parsePortRange` does not panic, returns a nil error,
    and returns one `int32(Atoi(token))` per token. -/
theorem parsePortRange_eq (port : Str) :
    parsePortRange port = .ok ((portTokens port).map (fun t => toInt32 (atoi t).1), none) := by
  by_cases h1 : '-' ∈ port
  · obtain ⟨p0, p1, rest, hp⟩ := stringsSplit_of_mem port '-' h1
    have c1 : stringsContains port '-' = true := (stringsContains_iff _ _).2 h1
    simp [parsePortRange, portTokens, c1, h1, hp, index]
  · have c1 : stringsContains port '-' = false := by
      rw [Bool.eq_false_iff, Ne, stringsContains_iff]; exact h1
    by_cases h2 : ',' ∈ port
    · have c2 : stringsContains port ',' = true := (stringsContains_iff _ _).2 h2
      simp [parsePortRange, portTokens, c1, c2, h1, h2]
    · have c2 : stringsContains port ',' = false := by
        rw [Bool.eq_false_iff, Ne, stringsContains_iff]; exact h2
      simp [parsePortRange, portTokens, c1, c2, h1, h2]

/-- No token handed to `Atoi` contains a `-`. -/
theorem not_mem_portTokens (port : Str) : ∀ t ∈ portTokens port, '-' ∉ t := by
  intro t ht
  unfold portTokens at ht
  split at ht
  · exact (mem_of_mem_stringsSplit port '-' t (List.mem_of_mem_take ht)).2
  · rename_i h1
    split at ht
    · exact fun hm => h1 ((mem_of_mem_stringsSplit port ',' t ht).1 _ hm)
    · simp at ht; subst ht; exact h1

/-- When `Atoi` reports a syntax error its value is 0. -/
theorem atoi_errSyntax (t : Str) (h : (atoi t).2 = some .errSyntax) : (atoi t).1 = 0 := by
  revert h
  unfold atoi
  split
  · cases t with
    | nil => intro _; rfl
    | cons c cs =>
      simp only
      generalize (if c = '-' ∨ c = '+' then cs else c :: cs) = body
      split
      · intro _; rfl
      · split
        · intro _; rfl
        · split <;> simp
  · unfold parseInt
    cases t with
    | nil => intro _; rfl
    | cons c cs =>
      simp only
      generalize (if c = '+' ∨ c = '-' then cs else c :: cs) = body
      split
      · intro _; rfl
      · split
        · simp
        · split
          · simp
          · split <;> simp

theorem atoiFastLoop_none (s : Str) (h : ∃ c ∈ s, isDigitByte c = false) :
    ∀ n, atoiFastLoop s n = none := by
  induction s with
  | nil => obtain ⟨c, hc, _⟩ := h; simp at hc
  | cons c cs ih =>
    intro n
    obtain ⟨d, hd, hdig⟩ := h
    by_cases hc : isDigitByte c = true
    · have hne : d ≠ c := fun e => by rw [e, hc] at hdig; cases hdig
      have hmem : d ∈ cs := by
        rcases List.mem_cons.1 hd with e | e
        · exact absurd e hne
        · exact e
      simp only [atoiFastLoop, hc]
      exact ih ⟨d, hmem, hdig⟩ _
    · simp [atoiFastLoop, hc]

/-- A string of fewer than 19 bytes without `-` that is not a decimal number
    (digits after an optional `+`) is rejected by `Atoi` with a syntax error. -/
theorem atoi_short_rejects (t : Str) (hlen : t.length < 19) (hm : '-' ∉ t)
    (hnot : ¬ IsDecimal (unsignedPart t)) : atoi t = (0, some .errSyntax) := by
  cases t with
  | nil => rfl
  | cons c cs =>
    have hc : c ≠ '-' := fun e => hm (by simp [e])
    have hbody : (if c = '-' ∨ c = '+' then cs else c :: cs) = unsignedPart (c :: cs) := by
      by_cases hp : c = '+'
      · simp [unsignedPart, hp]
      · simp [unsignedPart, hp, hc]
    unfold atoi
    rw [if_pos ⟨by simp, hlen⟩]
    simp only [hbody]
    by_cases hnil : unsignedPart (c :: cs) = []
    · simp [hnil]
    · have hex : ∃ d ∈ unsignedPart (c :: cs), isDigitByte d = false := by
        by_contra hall
        apply hnot
        refine ⟨hnil, fun d hd => ?_⟩
        by_contra hd2
        exact hall ⟨d, hd, by simpa using hd2⟩
      have hlen1 : ¬ (unsignedPart (c :: cs)).length < 1 := by
        cases hu : unsignedPart (c :: cs) with
        | nil => exact absurd hu hnil
        | cons x xs => simp
      rw [if_neg hlen1, atoiFastLoop_none _ hex]

/-- When `Atoi` reports a range error on a string without `-`, its value is the
    largest `int64`. -/
theorem atoi_errRange (t : Str) (hm : '-' ∉ t) (h : (atoi t).2 = some .errRange) :
    (atoi t).1 = 9223372036854775807 := by
  revert h
  unfold atoi
  split
  · cases t with
    | nil => simp
    | cons c cs =>
      simp only
      generalize (if c = '-' ∨ c = '+' then cs else c :: cs) = body
      split
      · simp
      · split
        · simp
        · split <;> simp
  · unfold parseInt
    cases t with
    | nil => simp
    | cons c cs =>
      have hc : c ≠ '-' := fun e => hm (by simp [e])
      simp only
      generalize (if c = '+' ∨ c = '-' then cs else c :: cs) = body
      split
      · simp
      · split
        · intro _; simp [intSize]
        · split
          · rename_i hneg
            exact absurd (of_decide_eq_true hneg.1) hc
          · split <;> simp

/-! ## Lemmas on the loops of `openPorts` -/

theorem portTokens_ne_nil (port : Str) : portTokens port ≠ [] := by
  unfold portTokens
  split
  · rename_i h
    obtain ⟨p0, p1, rest, hp⟩ := stringsSplit_of_mem port '-' h
    simp [hp]
  · split
    · exact stringsSplit_ne_nil port ','
    · simp

/-- The loop body, case by case: it panics when the parsed token has a single
    value, and otherwise makes exactly one call, with the request `requestFor`. -/
theorem openPortsBody_eq {σ : Type} (client : Client σ) (s : σ) (inst port : Str) :
    openPortsBody client s inst port =
      match requestFor inst port with
      | none => ⟨s, [], .panic (.indexOutOfRange 1 1)⟩
      | some input =>
        match client.openInstancePublicPorts s input with
        | (s1, some cause) =>
          ⟨s1, [.openInstancePublicPorts input (some cause)],
            .ret (.wrapped (errorText inst port cause) cause)⟩
        | (s1, none) => ⟨s1, [.openInstancePublicPorts input none], .next⟩ := by
  by_cases h : port = all
  · simp only [openPortsBody, requestFor, errorText, h, if_true]
  · simp only [openPortsBody, requestFor, errorText, h, if_false, parsePortRange_eq]
    have hne := portTokens_ne_nil port
    cases hv : (portTokens port).map (fun t => toInt32 (atoi t).1) with
    | nil => simp at hv; exact absurd hv hne
    | cons v0 vs =>
      cases vs with
      | nil => simp [index]
      | cons v1 vs => simp [index]

theorem pairsLoop_cons {σ : Type} (client : Client σ) (s : σ) (inst port : Str)
    (rest : List (Str × Str)) :
    pairsLoop client s ((inst, port) :: rest) =
      match requestFor inst port with
      | none => ⟨s, [], .panic (.indexOutOfRange 1 1)⟩
      | some input =>
        match client.openInstancePublicPorts s input with
        | (s1, some cause) =>
          ⟨s1, [.openInstancePublicPorts input (some cause)],
            .ret (.wrapped (errorText inst port cause) cause)⟩
        | (s1, none) =>
          ⟨(pairsLoop client s1 rest).state,
            .openInstancePublicPorts input none :: (pairsLoop client s1 rest).events,
            (pairsLoop client s1 rest).flow⟩ := by
  simp only [pairsLoop, openPortsBody_eq]
  cases requestFor inst port with
  | none => rfl
  | some input =>
    simp only
    rcases hc : client.openInstancePublicPorts s input with ⟨s1, _ | cause⟩
    · simp
    · simp

theorem pairsLoop_append {σ : Type} (client : Client σ) (a b : List (Str × Str)) :
    ∀ s, pairsLoop client s (a ++ b) =
      match (pairsLoop client s a).flow with
      | .next =>
        ⟨(pairsLoop client (pairsLoop client s a).state b).state,
          (pairsLoop client s a).events ++ (pairsLoop client (pairsLoop client s a).state b).events,
          (pairsLoop client (pairsLoop client s a).state b).flow⟩
      | _ => pairsLoop client s a := by
  induction a with
  | nil => intro s; simp [pairsLoop]
  | cons x rest ih =>
    intro s
    obtain ⟨inst, port⟩ := x
    rw [List.cons_append, pairsLoop_cons, pairsLoop_cons]
    cases requestFor inst port with
    | none => rfl
    | some input =>
      simp only
      rcases hc : client.openInstancePublicPorts s input with ⟨s1, _ | cause⟩
      · simp only [ih s1]
        cases hf : (pairsLoop client s1 rest).flow <;> simp [hf]
      · rfl

theorem portsLoop_eq {σ : Type} (client : Client σ) (inst : Str) (ports : List Str) :
    ∀ s, portsLoop client inst s ports = pairsLoop client s (ports.map (fun port => (inst, port))) := by
  induction ports with
  | nil => intro s; rfl
  | cons port rest ih =>
    intro s
    simp only [portsLoop, List.map_cons, pairsLoop, ih]

/-- The nested loops of `openPorts` are one loop over `iterations`. -/
theorem instancesLoop_eq {σ : Type} (client : Client σ) (ports : List Str) (instances : List Str) :
    ∀ s, instancesLoop client ports s instances
      = pairsLoop client s (iterations instances ports) := by
  induction instances with
  | nil => intro s; rfl
  | cons inst rest ih =>
    intro s
    simp only [instancesLoop, iterations, pairsLoop_append, portsLoop_eq, ih]

/-- Call number `j` of the loop is the call of iteration number `j`; when it
    fails it is the last call and the loop returns the wrapped error. -/
theorem pairsLoop_calls {σ : Type} (client : Client σ) :
    ∀ (pairs : List (Str × Str)) (s : σ) (j : Nat) (input : OpenInstancePublicPortsInput)
      (err : Option GoError),
      (openCalls (pairsLoop client s pairs).events)[j]? = some (input, err) →
      ∃ inst port, pairs[j]? = some (inst, port) ∧ requestFor inst port = some input ∧
        ∀ cause, err = some cause →
          (openCalls (pairsLoop client s pairs).events).length = j + 1 ∧
          (pairsLoop client s pairs).flow = .ret (.wrapped (errorText inst port cause) cause) := by
  intro pairs
  induction pairs with
  | nil => intro s j input err h; simp [pairsLoop, openCalls] at h
  | cons x rest ih =>
    intro s j input err h
    obtain ⟨inst, port⟩ := x
    rw [pairsLoop_cons] at h ⊢
    cases hr : requestFor inst port with
    | none => rw [hr] at h; simp [openCalls] at h
    | some input0 =>
      rw [hr] at h
      simp only at h ⊢
      rcases hc : client.openInstancePublicPorts s input0 with ⟨s1, _ | cause0⟩
      · rw [hc] at h
        simp only [openCalls] at h ⊢
        cases j with
        | zero =>
          simp only [List.getElem?_cons_zero, Option.some.injEq, Prod.mk.injEq] at h
          obtain ⟨h1, h2⟩ := h
          subst h1
          exact ⟨inst, port, by simp, hr, fun cause hcause => by rw [← h2] at hcause; cases hcause⟩
        | succ k =>
          simp only [List.getElem?_cons_succ] at h
          obtain ⟨i2, p2, hp, hq, hlast⟩ := ih s1 k input err h
          refine ⟨i2, p2, by simpa using hp, hq, fun cause hcause => ?_⟩
          obtain ⟨hl, hf⟩ := hlast cause hcause
          exact ⟨by simp [hl], hf⟩
      · rw [hc] at h
        simp only [openCalls] at h ⊢
        cases j with
        | zero =>
          simp only [List.getElem?_cons_zero, Option.some.injEq, Prod.mk.injEq] at h
          obtain ⟨h1, h2⟩ := h
          subst h1
          refine ⟨inst, port, by simp, hr, fun cause hcause => ?_⟩
          rw [← h2] at hcause
          cases hcause
          exact ⟨rfl, rfl⟩
        | succ k => simp at h

/-- An iteration is reached once all earlier calls have been made and have
    succeeded; if a request can be built for its token, the loop then makes the
    call of that iteration with that request. -/
theorem pairsLoop_reach {σ : Type} (client : Client σ) :
    ∀ (pairs : List (Str × Str)) (s : σ) (i : Nat) (inst port : Str)
      (input : OpenInstancePublicPortsInput),
      pairs[i]? = some (inst, port) → requestFor inst port = some input →
      (∀ j, j < i → ∃ inp, (openCalls (pairsLoop client s pairs).events)[j]? = some (inp, none)) →
      ∃ err, (openCalls (pairsLoop client s pairs).events)[i]? = some (input, err) := by
  intro pairs
  induction pairs with
  | nil => intro s i inst port input h; simp at h
  | cons x rest ih =>
    intro s i inst port input hp hq hbefore
    obtain ⟨i0, p0⟩ := x
    rw [pairsLoop_cons] at hbefore ⊢
    cases i with
    | zero =>
      simp only [List.getElem?_cons_zero, Option.some.injEq, Prod.mk.injEq] at hp
      obtain ⟨h1, h2⟩ := hp
      subst h1 h2
      rw [hq]
      simp only
      rcases hc : client.openInstancePublicPorts s input with ⟨s1, _ | cause⟩
      · exact ⟨none, by simp [openCalls]⟩
      · exact ⟨some cause, by simp [openCalls]⟩
    | succ k =>
      simp only [List.getElem?_cons_succ] at hp
      obtain ⟨inp0, h0⟩ := hbefore 0 (Nat.succ_pos k)
      cases hr : requestFor i0 p0 with
      | none => rw [hr] at h0; simp [openCalls] at h0
      | some input0 =>
        rw [hr] at h0 hbefore
        simp only at h0 hbefore ⊢
        rcases hc : client.openInstancePublicPorts s input0 with ⟨s1, _ | cause⟩
        · rw [hc] at hbefore
          simp only [openCalls] at hbefore ⊢
          have hrest : ∀ j, j < k →
              ∃ inp, (openCalls (pairsLoop client s1 rest).events)[j]? = some (inp, none) := by
            intro j hj
            obtain ⟨inp, hinp⟩ := hbefore (j + 1) (Nat.succ_lt_succ hj)
            exact ⟨inp, by simpa using hinp⟩
          obtain ⟨err, herr⟩ := ih s1 k inst port input hp hq hrest
          exact ⟨err, by simpa using herr⟩
        · rw [hc] at h0
          simp [openCalls] at h0

/-- The loop makes no list-instances call. -/
theorem pairsLoop_listCalls {σ : Type} (client : Client σ) :
    ∀ (pairs : List (Str × Str)) (s : σ), listCalls (pairsLoop client s pairs).events = 0 := by
  intro pairs
  induction pairs with
  | nil => intro s; rfl
  | cons x rest ih =>
    intro s
    obtain ⟨inst, port⟩ := x
    rw [pairsLoop_cons]
    cases requestFor inst port with
    | none => rfl
    | some input0 =>
      simp only
      rcases hc : client.openInstancePublicPorts s input0 with ⟨s1, _ | cause0⟩
      · simpa [listCalls] using ih s1
      · rfl

/-- A loop that falls through has made one successful call per iteration. -/
theorem pairsLoop_next {σ : Type} (client : Client σ) :
    ∀ (pairs : List (Str × Str)) (s : σ), (pairsLoop client s pairs).flow = .next →
      (openCalls (pairsLoop client s pairs).events).length = pairs.length := by
  intro pairs
  induction pairs with
  | nil => intro s _; rfl
  | cons x rest ih =>
    intro s
    obtain ⟨inst, port⟩ := x
    rw [pairsLoop_cons]
    cases requestFor inst port with
    | none => intro h; cases h
    | some input0 =>
      simp only
      rcases hc : client.openInstancePublicPorts s input0 with ⟨s1, _ | cause0⟩
      · intro h
        simp only [openCalls, List.length_cons]
        rw [ih s1 h]
      · intro h; cases h

/-- A loop that panics does so in the iteration after its last call, on a token
    for which no request can be built, with an index-out-of-range panic. -/
theorem pairsLoop_panic {σ : Type} (client : Client σ) :
    ∀ (pairs : List (Str × Str)) (s : σ) (p : Panic), (pairsLoop client s pairs).flow = .panic p →
      p = .indexOutOfRange 1 1 ∧
      ∃ inst port, pairs[(openCalls (pairsLoop client s pairs).events).length]? = some (inst, port)
        ∧ requestFor inst port = none := by
  intro pairs
  induction pairs with
  | nil => intro s p h; cases h
  | cons x rest ih =>
    intro s p
    obtain ⟨inst, port⟩ := x
    rw [pairsLoop_cons]
    cases hr : requestFor inst port with
    | none =>
      intro h
      simp only [Flow.panic.injEq] at h
      exact ⟨h.symm, inst, port, by simp [openCalls], hr⟩
    | some input0 =>
      simp only
      rcases hc : client.openInstancePublicPorts s input0 with ⟨s1, _ | cause0⟩
      · intro h
        obtain ⟨hp, i2, p2, hq, hn⟩ := ih s1 p h
        exact ⟨hp, i2, p2, by simpa [openCalls] using hq, hn⟩
      · intro h; cases h

/-- When every call succeeds and a request can be built for every token, the
    loop falls through. -/
theorem pairsLoop_ok {σ : Type} (client : Client σ)
    (hok : ∀ s input, (client.openInstancePublicPorts s input).2 = none) :
    ∀ (pairs : List (Str × Str)) (s : σ),
      (∀ x ∈ pairs, requestFor x.1 x.2 ≠ none) →
      (pairsLoop client s pairs).flow = .next ∧
      (openCalls (pairsLoop client s pairs).events).map Prod.fst
        = pairs.filterMap (fun x => requestFor x.1 x.2) := by
  intro pairs
  induction pairs with
  | nil => intro s _; exact ⟨rfl, rfl⟩
  | cons x rest ih =>
    intro s hreq
    obtain ⟨inst, port⟩ := x
    rw [pairsLoop_cons]
    cases hr : requestFor inst port with
    | none => exact absurd hr (hreq (inst, port) (by simp))
    | some input0 =>
      simp only
      rcases hc : client.openInstancePublicPorts s input0 with ⟨s1, _ | cause0⟩
      · obtain ⟨h1, h2⟩ := ih s1 (fun x hx => hreq x (by simp [hx]))
        refine ⟨h1, ?_⟩
        simp only [openCalls, List.map_cons, List.filterMap_cons, hr, h2]
      · have := hok s input0
        rw [hc] at this
        cases this

/-- The pair visited by iteration number `j`: instance `j / len(ports)` and port
    token `j % len(ports)`. -/
theorem iterations_getElem? (ports : List Str) :
    ∀ (instances : List Str) (j : Nat) (inst port : Str),
      (iterations instances ports)[j]? = some (inst, port) →
      instances[j / ports.length]? = some inst ∧ ports[j % ports.length]? = some port := by
  intro instances
  induction instances with
  | nil => intro j inst port h; simp [iterations] at h
  | cons i0 rest ih =>
    intro j inst port h
    simp only [iterations] at h
    by_cases hj : j < ports.length
    · rw [List.getElem?_append_left (by simpa using hj)] at h
      simp only [List.getElem?_map, Option.map_eq_some', Prod.mk.injEq] at h
      obtain ⟨q, hq, h1, h2⟩ := h
      subst h1 h2
      rw [Nat.div_eq_of_lt hj, Nat.mod_eq_of_lt hj]
      exact ⟨by simp, hq⟩
    · have hle : ports.length ≤ j := Nat.le_of_not_lt hj
      rw [List.getElem?_append_right (by simpa using hle)] at h
      simp only [List.length_map] at h
      obtain ⟨h1, h2⟩ := ih (j - ports.length) inst port h
      have hpos : 0 < ports.length := by
        rcases Nat.eq_zero_or_pos ports.length with h0 | h0
        · rw [h0] at h2; simp at h2
          have : ports = [] := List.length_eq_zero.1 h0
          subst this; simp at h2
        · exact h0
      have hd : j / ports.length = (j - ports.length) / ports.length + 1 := by
        conv_lhs => rw [← Nat.sub_add_cancel hle]
        rw [Nat.add_div_right _ hpos]
      have hm : j % ports.length = (j - ports.length) % ports.length := by
        conv_lhs => rw [← Nat.sub_add_cancel hle]
        rw [Nat.add_mod_right]
      rw [hd, hm]
      exact ⟨by simpa using h1, h2⟩

theorem iterations_length (ports : List Str) (instances : List Str) :
    (iterations instances ports).length = instances.length * ports.length := by
  induction instances with
  | nil => simp [iterations]
  | cons i0 rest ih => simp [iterations, ih, Nat.succ_mul, Nat.add_comm]

/-! ## Lemmas on the request and the error text -/

/-- No request can be built exactly for the bare tokens. -/
theorem requestFor_eq_none_iff (inst port : Str) : requestFor inst port = none ↔ IsBare port := by
  unfold requestFor IsBare
  by_cases h : port = all
  · simp [h]
  · simp only [h, if_false, ne_eq, not_false_eq_true, true_and]
    by_cases h1 : '-' ∈ port
    · obtain ⟨p0, p1, rest, hp⟩ := stringsSplit_of_mem port '-' h1
      simp [portTokens, h1, hp]
    · by_cases h2 : ',' ∈ port
      · obtain ⟨p0, p1, rest, hp⟩ := stringsSplit_of_mem port ',' h2
        simp [portTokens, h1, h2, hp]
      · simp [portTokens, h1, h2]

/-- The request of a token: for the instance at hand, the full range with
    protocol ALL for `"all"` and protocol TCP for every other token. -/
theorem requestFor_some (inst port : Str) (input : OpenInstancePublicPortsInput)
    (h : requestFor inst port = some input) :
    input.instanceName = inst ∧
    (port = all → input.portInfo = ⟨0, 65535, .all⟩) ∧
    (input.portInfo.protocol = .all ↔ port = all) := by
  unfold requestFor at h
  by_cases hp : port = all
  · simp only [hp, if_true, Option.some.injEq] at h
    subst h
    simp [hp]
  · simp only [hp, if_false] at h
    split at h
    · simp only [Option.some.injEq] at h
      subst h
      simp [hp]
    · cases h

/-- The request of every token other than `"all"` has protocol TCP. -/
theorem requestFor_tcp (inst port : Str) (input : OpenInstancePublicPortsInput)
    (h : requestFor inst port = some input) (hp : port ≠ all) :
    input.portInfo.protocol = .tcp := by
  unfold requestFor at h
  rw [if_neg hp] at h
  split at h
  · simp only [Option.some.injEq] at h
    subst h
    rfl
  · cases h

theorem isPort_ne_all (s : Str) (n : Nat) (h : IsPort s n) : s ≠ all := by
  intro e
  subst e
  have := h.1.2 'a' (by decide)
  revert this
  decide

theorem isBare_of_isPort (s : Str) (n : Nat) (h : IsPort s n) : IsBare s :=
  ⟨isPort_ne_all s n h, (not_mem_of_isPort s n h).1, (not_mem_of_isPort s n h).2⟩

/-- The request of a range token with decimal endpoints: the endpoints as given. -/
theorem requestFor_range (inst a b : Str) (m n : Nat) (ha : IsPort a m) (hb : IsPort b n) :
    requestFor inst (a ++ '-' :: b) = some ⟨inst, ⟨(m : Int), (n : Int), .tcp⟩⟩ := by
  have hne : a ++ '-' :: b ≠ all := by
    intro e
    have : '-' ∈ all := by rw [← e]; simp
    revert this
    decide
  have hmem : '-' ∈ a ++ '-' :: b := by simp
  have hsplit : stringsSplit (a ++ '-' :: b) '-' = [a, b] := by
    rw [stringsSplit_append a b '-' (not_mem_of_isPort a m ha).1,
      stringsSplit_of_not_mem b '-' (not_mem_of_isPort b n hb).1]
  unfold requestFor
  rw [if_neg hne]
  simp only [portTokens, hmem, if_true, hsplit, List.take, List.map,
    toInt32_atoi_port a m ha, toInt32_atoi_port b n hb]

theorem errorText_mentions (inst port : Str) (cause : GoError) :
    Mentions (errorText inst port cause) inst ∧ Mentions (errorText inst port cause) port := by
  unfold errorText
  by_cases hp : port = all
  · rw [if_pos hp]
    refine ⟨⟨"failed to open all ports for instance ".toList, ": ".toList ++ cause.Error, by simp⟩,
      ⟨"failed to open ".toList, " ports for instance ".toList ++ inst ++ ": ".toList ++ cause.Error, ?_⟩⟩
    subst hp
    simp [all]
  · rw [if_neg hp]
    exact ⟨⟨"failed to open port ".toList ++ port ++ " for instance ".toList,
        ": ".toList ++ cause.Error, by simp⟩,
      ⟨"failed to open port ".toList, " for instance ".toList ++ inst ++ ": ".toList ++ cause.Error,
        by simp⟩⟩

/-! ## Lemmas on `openPorts` as a whole -/

theorem openCalls_append (a b : List Event) : openCalls (a ++ b) = openCalls a ++ openCalls b := by
  induction a with
  | nil => rfl
  | cons e rest ih => cases e <;> simp [openCalls, ih]

theorem listCalls_append (a b : List Event) : listCalls (a ++ b) = listCalls a + listCalls b := by
  induction a with
  | nil => simp [listCalls]
  | cons e rest ih =>
    cases e with
    | getInstances => simp [listCalls, ih]; omega
    | openInstancePublicPorts input err => simp [listCalls, ih]

theorem selector_iff (instanceNames : List Str) :
    (instanceNames.length = 1 ∧ instanceNames[0]? = some all) ↔ instanceNames = [all] := by
  cases instanceNames with
  | nil => simp
  | cons x rest =>
    cases rest with
    | nil => simp
    | cons y rest => simp

/-- The calls made while resolving the instances: one list-instances call for
    the selector `["all"]`, none otherwise, and never an open-ports call. -/
theorem resolveInstances_events {σ : Type} (client : Client σ) (s : σ) (instanceNames : List Str) :
    (resolveInstances client s instanceNames).2.1
      = if instanceNames = [all] then [.getInstances] else [] := by
  unfold resolveInstances
  by_cases h : instanceNames = [all]
  · rw [if_pos ((selector_iff _).2 h), if_pos h]
    rcases client.getInstances s with ⟨s1, err | output⟩ <;> rfl
  · rw [if_neg (fun hc => h ((selector_iff _).1 hc)), if_neg h]

theorem resolveInstances_literal {σ : Type} (client : Client σ) (s : σ) (instanceNames : List Str)
    (h : instanceNames ≠ [all]) :
    resolveInstances client s instanceNames = (s, [], .ok instanceNames) := by
  unfold resolveInstances
  rw [if_neg (fun hc => h ((selector_iff _).1 hc))]

/-- After the instances are resolved, `openPorts` is the single loop over the
    iterations. -/
theorem openPorts_eq {σ : Type} (client : Client σ) (s : σ) (instanceNames ports : List Str)
    (instances : List Str) (h : (resolveInstances client s instanceNames).2.2 = .ok instances) :
    openPorts client s instanceNames ports =
      finish (resolveInstances client s instanceNames).2.1
        (pairsLoop client (resolveInstances client s instanceNames).1 (iterations instances ports)) := by
  unfold openPorts
  rcases hr : resolveInstances client s instanceNames with ⟨s1, before, err | insts⟩
  · rw [hr] at h; cases h
  · rw [hr] at h
    simp only [Except.ok.injEq] at h
    subst h
    simp only [instancesLoop_eq]

theorem openPorts_error {σ : Type} (client : Client σ) (s : σ) (instanceNames ports : List Str)
    (err : GoError) (h : (resolveInstances client s instanceNames).2.2 = .error err) :
    (openPorts client s instanceNames ports).events = (resolveInstances client s instanceNames).2.1
    ∧ (openPorts client s instanceNames ports).outcome = .ok (some err) := by
  unfold openPorts
  rcases hr : resolveInstances client s instanceNames with ⟨s1, before, e | insts⟩
  · rw [hr] at h
    simp only [Except.error.injEq] at h
    subst h
    exact ⟨rfl, rfl⟩
  · rw [hr] at h; cases h

theorem finish_events {σ : Type} (before : List Event) (e : Exec σ) :
    (finish before e).events = before ++ e.events := by
  unfold finish
  cases e.flow <;> rfl

theorem finish_outcome {σ : Type} (before : List Event) (e : Exec σ) :
    (finish before e).outcome =
      match e.flow with
      | .next => .ok none
      | .ret err => .ok (some err)
      | .panic p => .panic p := by
  unfold finish
  cases e.flow <;> rfl

/-- The open-ports calls of `openPorts` are those of its loop. -/
theorem openPorts_openCalls {σ : Type} (client : Client σ) (s : σ) (instanceNames ports : List Str)
    (instances : List Str) (h : (resolveInstances client s instanceNames).2.2 = .ok instances) :
    openCalls (openPorts client s instanceNames ports).events =
      openCalls (pairsLoop client (resolveInstances client s instanceNames).1
        (iterations instances ports)).events := by
  rw [openPorts_eq client s instanceNames ports instances h, finish_events, openCalls_append,
    resolveInstances_events]
  split <;> simp [openCalls]

/-- Every open-ports call of `openPorts` is the call of an iteration of its
    loops over the resolved instances, with the request of that iteration. -/
theorem openPorts_call_iteration {σ : Type} (client : Client σ) (s : σ)
    (instanceNames ports : List Str) (j : Nat) (input : OpenInstancePublicPortsInput)
    (err : Option GoError)
    (h : (openCalls (openPorts client s instanceNames ports).events)[j]? = some (input, err)) :
    ∃ instances inst port, (resolveInstances client s instanceNames).2.2 = .ok instances ∧
      (iterations instances ports)[j]? = some (inst, port) ∧
      requestFor inst port = some input := by
  rcases hr : (resolveInstances client s instanceNames).2.2 with e | instances
  · rw [(openPorts_error client s instanceNames ports e hr).1, resolveInstances_events] at h
    split at h <;> simp [openCalls] at h
  · rw [openPorts_openCalls client s instanceNames ports instances hr] at h
    obtain ⟨inst, port, hp, hq, _⟩ := pairsLoop_calls client _ _ j input err h
    exact ⟨instances, inst, port, rfl, hp, hq⟩

/-! ## The parser: single ports, ranges, comma lists -/

/-- C2. For a plain decimal port number `s` of value `n` (no `-`, no `,`) the
    doc comment of `parsePortRange` promises the pair `[n, n]`; the code returns
    the one-element slice `[n]` (with a nil error), never the pair. -/
theorem parsePortRange_single_is_one_value (s : Str) (n : Nat) (h : IsPort s n) :
    parsePortRange s = .ok ([(n : Int)], none) ∧
    parsePortRange s ≠ .ok ([(n : Int), (n : Int)], none) := by
  rw [parsePortRange_single s n h]
  exact ⟨rfl, by simp⟩

theorem parsePortRange_single_is_one_value_witness :
    IsPort "80".toList 80 ∧
    parsePortRange "80".toList = .ok ([80], none) ∧
    parsePortRange "80".toList ≠ .ok ([80, 80], none) :=
  ⟨by decide, parsePortRange_single_is_one_value "80".toList 80 (by decide)⟩

/-- C4. For every string `A-B` whose two parts are plain decimal numbers in
    `0..65535`, `parsePortRange` returns exactly `[A, B]` with a nil error;
    nothing relates `A` and `B`, so the order is not checked. -/
theorem parsePortRange_dash (a b : Str) (m n : Nat) (ha : IsPort a m) (hb : IsPort b n) :
    parsePortRange (a ++ '-' :: b) = .ok ([(m : Int), (n : Int)], none) :=
  parsePortRange_range a b m n ha hb

theorem parsePortRange_dash_witness :
    (IsPort "100".toList 100 ∧ IsPort "80".toList 80) ∧
    parsePortRange "100-80".toList = .ok ([100, 80], none) :=
  ⟨by decide, parsePortRange_dash "100".toList "80".toList 100 80 (by decide) (by decide)⟩

/-- C3. The string `80,443` parses to the flat slice `[80, 443]`, and `openPorts`
    sends it as one request for the TCP range 80..443 instead of two requests for
    the single ports 80 and 443; of `80,443,8080` the third value is dropped. -/
theorem comma_list_opens_a_range :
    parsePortRange "80,443".toList = .ok ([80, 443], none) ∧
    (openPorts (okClient []) () ["web".toList] ["80,443".toList]).events
      = [.openInstancePublicPorts ⟨"web".toList, ⟨80, 443, .tcp⟩⟩ none] ∧
    (openPorts (okClient []) () ["web".toList] ["80,443,8080".toList]).events
      = [.openInstancePublicPorts ⟨"web".toList, ⟨80, 443, .tcp⟩⟩ none] := by
  decide

/-- C9, counterexample. The token `99999999999999999999x` is no integer and
    `Atoi` rejects it, yet it contributes `-1` to the result, not `0`; so does the
    endpoint `99999999999999999999` of a range. -/
theorem rejected_token_contributes_minus_one :
    (atoi "99999999999999999999x".toList).2 = some .errRange ∧
    parsePortRange "99999999999999999999x".toList = .ok ([-1], none) ∧
    parsePortRange "80-99999999999999999999".toList = .ok ([80, -1], none) := by
  decide

/-- C9, amended. For every input string `parsePortRange` does not panic and
    returns a nil error, with one value `int32(Atoi(token))` per token (the two
    range endpoints, the comma elements, or the whole string).  A token that
    `Atoi` rejects with a syntax error contributes exactly `0`, which includes
    every token of fewer than 19 bytes that is not a decimal number (digits after
    an optional `+`); a token that `Atoi` rejects with a range error contributes
    `-1`. -/
theorem parsePortRange_silent_fallback (port : Str) :
    parsePortRange port = .ok ((portTokens port).map (fun t => toInt32 (atoi t).1), none) ∧
    ∀ t ∈ portTokens port,
      ((atoi t).2 = some .errSyntax → toInt32 (atoi t).1 = 0) ∧
      (t.length < 19 → ¬ IsDecimal (unsignedPart t) →
        (atoi t).2 = some .errSyntax ∧ toInt32 (atoi t).1 = 0) ∧
      ((atoi t).2 = some .errRange → toInt32 (atoi t).1 = -1) := by
  refine ⟨parsePortRange_eq port, fun t ht => ⟨fun h => ?_, fun hlen hnot => ?_, fun h => ?_⟩⟩
  · rw [atoi_errSyntax t h]; decide
  · rw [atoi_short_rejects t hlen (not_mem_portTokens port t ht) hnot]
    exact ⟨rfl, by decide⟩
  · rw [atoi_errRange t (not_mem_portTokens port t ht) h]; decide

/-- C10. For a plain decimal port number `s` of value `n` in `0..65535`, leading
    zeros included, parsing `s` gives the value `n`, and parsing the decimal form
    of that value gives the same result as parsing `s`. -/
theorem parsePortRange_roundtrip (s : Str) (n : Nat) (h : IsPort s n) :
    ∃ v, parsePortRange s = .ok ([v], none) ∧ v = (n : Int) ∧
      parsePortRange (itoa v) = parsePortRange s := by
  refine ⟨(n : Int), parsePortRange_single s n h, rfl, ?_⟩
  rw [parsePortRange_single s n h, parsePortRange_single (itoa (n : Int)) n (isPort_itoa n h.2.2)]

theorem parsePortRange_roundtrip_witness :
    IsPort "0080".toList 80 ∧
    ∃ v, parsePortRange "0080".toList = .ok ([v], none) ∧ v = ((80 : Nat) : Int) ∧
      parsePortRange (itoa v) = parsePortRange "0080".toList :=
  ⟨by decide, parsePortRange_roundtrip "0080".toList 80 (by decide)⟩

/-! ## The orchestrator -/

/-- C1. For an explicit instance list and a port list that starts with a plain
    decimal port number, the specification has one TCP request per instance and
    token; the code panics on the first token (index 1 of a slice of length 1)
    before it has made any call, whatever the client. -/
theorem openPorts_single_port_panics {σ : Type} (client : Client σ) (s : σ)
    (inst : Str) (instances : List Str) (port : Str) (ports : List Str) (n : Nat)
    (hsel : inst :: instances ≠ [all]) (hport : IsPort port n) :
    (openPorts client s (inst :: instances) (port :: ports)).events = [] ∧
    (openPorts client s (inst :: instances) (port :: ports)).outcome
      = .panic (.indexOutOfRange 1 1) := by
  have hres := resolveInstances_literal client s (inst :: instances) hsel
  have hnone : requestFor inst port = none :=
    (requestFor_eq_none_iff inst port).2 (isBare_of_isPort port n hport)
  have hloop : pairsLoop client s (iterations (inst :: instances) (port :: ports))
      = ⟨s, [], .panic (.indexOutOfRange 1 1)⟩ := by
    simp only [iterations, List.map_cons, List.cons_append, pairsLoop_cons, hnone]
  rw [openPorts_eq client s (inst :: instances) (port :: ports) (inst :: instances) (by rw [hres]),
    hres]
  simp only [hloop]
  exact ⟨rfl, rfl⟩

theorem openPorts_single_port_panics_witness :
    (["web".toList] ≠ [all] ∧ IsPort "80".toList 80) ∧
    (openPorts (okClient []) () ["web".toList] ["80".toList, "443".toList]).events = [] ∧
    (openPorts (okClient []) () ["web".toList] ["80".toList, "443".toList]).outcome
      = .panic (.indexOutOfRange 1 1) :=
  ⟨by decide, openPorts_single_port_panics (okClient []) () "web".toList [] "80".toList
    ["443".toList] 80 (by decide) (by decide)⟩

/-- C5, counterexample. An occurrence of `"all"` does not always issue its
    request.  With a client whose first call fails, the ports `1-2`, `all` give the
    single call for `1-2`: `openPorts` returns the wrapped error and never gets to
    `"all"`.  With a client whose calls all succeed, the ports `80`, `all` give no
    call at all: the run panics on `80`. -/
theorem all_token_not_always_issued :
    (openPorts (failingClient [] 1) 0 ["web".toList] ["1-2".toList, all]).events
      = [.openInstancePublicPorts ⟨"web".toList, ⟨1, 2, .tcp⟩⟩ (some (.sdk "boom".toList))] ∧
    (openPorts (failingClient [] 1) 0 ["web".toList] ["1-2".toList, all]).outcome
      = .ok (some (.wrapped "failed to open port 1-2 for instance web: boom".toList
          (.sdk "boom".toList))) ∧
    (openPorts (okClient []) () ["web".toList] ["80".toList, all]).events = [] ∧
    (openPorts (okClient []) () ["web".toList] ["80".toList, all]).outcome
      = .panic (.indexOutOfRange 1 1) := by
  decide

/-- C5, amended. For every client, instance list and port-token list, with the
    iterations of the loops numbered from 0 (instances outer, tokens inner) and an
    iteration reached once the calls of all earlier iterations have been made and
    have succeeded:
    (1) an occurrence of `"all"` at a reached iteration `i` makes `openPorts`
    issue, as call number `i`, the request (current instance, 0, 65535, ALL),
    whatever the other tokens are;
    (2) any other token with a `-` or a `,` at a reached iteration `i` makes it
    issue, as call number `i`, a request for the current instance with protocol
    TCP;
    (3) call number `j` belongs to iteration number `j`, so an iteration issues
    exactly one request, for its own instance; the request is (0, 65535, ALL) for
    the token `"all"`, has protocol TCP for every other token, hence protocol ALL
    if and only if the token is `"all"`, and is (0, 65535, TCP) for `0-65535`;
    (4) a run that returns nil has issued one request for every instance and token. -/
theorem openPorts_all_token {σ : Type} (client : Client σ) (s : σ)
    (instanceNames ports instances : List Str)
    (hres : (resolveInstances client s instanceNames).2.2 = .ok instances) :
    (∀ (i : Nat) (inst : Str), (iterations instances ports)[i]? = some (inst, all) →
      (∀ j, j < i → ∃ inp,
        (openCalls (openPorts client s instanceNames ports).events)[j]? = some (inp, none)) →
      ∃ err, (openCalls (openPorts client s instanceNames ports).events)[i]?
        = some ((⟨inst, ⟨0, 65535, .all⟩⟩ : OpenInstancePublicPortsInput), err)) ∧
    (∀ (i : Nat) (inst port : Str), (iterations instances ports)[i]? = some (inst, port) →
      port ≠ all → ¬ IsBare port →
      (∀ j, j < i → ∃ inp,
        (openCalls (openPorts client s instanceNames ports).events)[j]? = some (inp, none)) →
      ∃ input err, (openCalls (openPorts client s instanceNames ports).events)[i]?
          = some (input, err) ∧
        input.instanceName = inst ∧ input.portInfo.protocol = .tcp) ∧
    (∀ j input err, (openCalls (openPorts client s instanceNames ports).events)[j]? = some (input, err) →
      ∃ port, ports[j % ports.length]? = some port ∧
        instances[j / ports.length]? = some input.instanceName ∧
        (port = all → input.portInfo = ⟨0, 65535, .all⟩) ∧
        (port ≠ all → input.portInfo.protocol = .tcp) ∧
        (input.portInfo.protocol = .all ↔ port = all) ∧
        (port = "0-65535".toList → input.portInfo = ⟨0, 65535, .tcp⟩)) ∧
    ((openPorts client s instanceNames ports).outcome = .ok none →
      (openCalls (openPorts client s instanceNames ports).events).length
        = instances.length * ports.length) := by
  rw [openPorts_openCalls client s instanceNames ports instances hres]
  refine ⟨fun i inst hi hbefore => ?_, fun i inst port hi hne hbare hbefore => ?_,
    fun j input err h => ?_, fun h => ?_⟩
  · exact pairsLoop_reach client _ _ i inst all ⟨inst, ⟨0, 65535, .all⟩⟩ hi
      (by simp [requestFor]) hbefore
  · cases hq : requestFor inst port with
    | none => exact absurd ((requestFor_eq_none_iff inst port).1 hq) hbare
    | some input =>
      obtain ⟨err, herr⟩ := pairsLoop_reach client _ _ i inst port input hi hq hbefore
      exact ⟨input, err, herr, (requestFor_some inst port input hq).1,
        requestFor_tcp inst port input hq hne⟩
  · obtain ⟨inst, port, hp, hq, _⟩ := pairsLoop_calls client _ _ j input err h
    obtain ⟨h1, h2⟩ := iterations_getElem? ports instances j inst port hp
    obtain ⟨r1, r2, r3⟩ := requestFor_some inst port input hq
    refine ⟨port, h2, by rw [r1]; exact h1, r2, requestFor_tcp inst port input hq, r3, ?_⟩
    intro hfull
    have hr := requestFor_range inst "0".toList "65535".toList 0 65535 (by decide) (by decide)
    have hs : "0".toList ++ '-' :: "65535".toList = port := by rw [hfull]; rfl
    rw [hs, hq] at hr
    simp only [Option.some.injEq] at hr
    rw [hr]
    rfl
  · rw [openPorts_eq client s instanceNames ports instances hres, finish_outcome] at h
    split at h
    · rename_i hf
      rw [pairsLoop_next client _ _ hf, iterations_length]
    · cases h
    · cases h

theorem openPorts_all_token_witness :
    (resolveInstances (okClient [some "a".toList, some "b".toList]) () [all]).2.2
      = .ok ["a".toList, "b".toList] ∧
    ((∀ (i : Nat) (inst : Str), (iterations ["a".toList, "b".toList] ["0-65535".toList, all])[i]?
        = some (inst, all) →
      (∀ j, j < i → ∃ inp,
        (openCalls (openPorts (okClient [some "a".toList, some "b".toList]) () [all]
          ["0-65535".toList, all]).events)[j]? = some (inp, none)) →
      ∃ err, (openCalls (openPorts (okClient [some "a".toList, some "b".toList]) () [all]
          ["0-65535".toList, all]).events)[i]?
        = some ((⟨inst, ⟨0, 65535, .all⟩⟩ : OpenInstancePublicPortsInput), err)) ∧
    (∀ (i : Nat) (inst port : Str),
      (iterations ["a".toList, "b".toList] ["0-65535".toList, all])[i]? = some (inst, port) →
      port ≠ all → ¬ IsBare port →
      (∀ j, j < i → ∃ inp,
        (openCalls (openPorts (okClient [some "a".toList, some "b".toList]) () [all]
          ["0-65535".toList, all]).events)[j]? = some (inp, none)) →
      ∃ input err, (openCalls (openPorts (okClient [some "a".toList, some "b".toList]) () [all]
          ["0-65535".toList, all]).events)[i]? = some (input, err) ∧
        input.instanceName = inst ∧ input.portInfo.protocol = .tcp) ∧
    (∀ j input err,
      (openCalls (openPorts (okClient [some "a".toList, some "b".toList]) () [all]
        ["0-65535".toList, all]).events)[j]? = some (input, err) →
      ∃ port, ["0-65535".toList, all][j % ["0-65535".toList, all].length]? = some port ∧
        ["a".toList, "b".toList][j / ["0-65535".toList, all].length]? = some input.instanceName ∧
        (port = all → input.portInfo = ⟨0, 65535, .all⟩) ∧
        (port ≠ all → input.portInfo.protocol = .tcp) ∧
        (input.portInfo.protocol = .all ↔ port = all) ∧
        (port = "0-65535".toList → input.portInfo = ⟨0, 65535, .tcp⟩)) ∧
    ((openPorts (okClient [some "a".toList, some "b".toList]) () [all]
        ["0-65535".toList, all]).outcome = .ok none →
      (openCalls (openPorts (okClient [some "a".toList, some "b".toList]) () [all]
        ["0-65535".toList, all]).events).length
        = ["a".toList, "b".toList].length * ["0-65535".toList, all].length)) :=
  ⟨rfl, openPorts_all_token (okClient [some "a".toList, some "b".toList]) () [all]
    ["0-65535".toList, all] ["a".toList, "b".toList] rfl⟩

/-- C6. Fail-fast, for every client, instance list and port-token list: if call
    number `k` of `openPorts` (counting from 1) returns an error, then it is the
    last call, exactly `k` open-ports calls are made, and `openPorts` returns an
    error that wraps the error of the client and whose text contains the instance
    and the port token of iteration number `k` (instances outer, tokens inner). -/
theorem openPorts_fail_fast {σ : Type} (client : Client σ) (s : σ)
    (instanceNames ports instances : List Str) (k : Nat)
    (input : OpenInstancePublicPortsInput) (cause : GoError)
    (hres : (resolveInstances client s instanceNames).2.2 = .ok instances)
    (hk : 1 ≤ k)
    (hcall : (openCalls (openPorts client s instanceNames ports).events)[k - 1]?
      = some (input, some cause)) :
    (openCalls (openPorts client s instanceNames ports).events).length = k ∧
    ∃ inst port text,
      instances[(k - 1) / ports.length]? = some inst ∧
      ports[(k - 1) % ports.length]? = some port ∧
      input.instanceName = inst ∧
      (openPorts client s instanceNames ports).outcome = .ok (some (.wrapped text cause)) ∧
      Mentions text inst ∧ Mentions text port := by
  rw [openPorts_openCalls client s instanceNames ports instances hres] at hcall ⊢
  obtain ⟨inst, port, hp, hq, hlast⟩ := pairsLoop_calls client _ _ (k - 1) input (some cause) hcall
  obtain ⟨hlen, hflow⟩ := hlast cause rfl
  obtain ⟨h1, h2⟩ := iterations_getElem? ports instances (k - 1) inst port hp
  obtain ⟨r1, _, _⟩ := requestFor_some inst port input hq
  obtain ⟨m1, m2⟩ := errorText_mentions inst port cause
  refine ⟨by omega, inst, port, errorText inst port cause, h1, h2, r1, ?_, m1, m2⟩
  rw [openPorts_eq client s instanceNames ports instances hres, finish_outcome, hflow]

theorem openPorts_fail_fast_witness :
    ((resolveInstances (failingClient [] 2) 0 ["i".toList, "j".toList]).2.2
        = .ok ["i".toList, "j".toList] ∧
      1 ≤ 2 ∧
      (openCalls (openPorts (failingClient [] 2) 0 ["i".toList, "j".toList]
        [all, "1-2".toList]).events)[2 - 1]?
        = some (⟨"i".toList, ⟨1, 2, .tcp⟩⟩, some (.sdk "boom".toList))) ∧
    ((openCalls (openPorts (failingClient [] 2) 0 ["i".toList, "j".toList]
        [all, "1-2".toList]).events).length = 2 ∧
      ∃ inst port text,
        ["i".toList, "j".toList][(2 - 1) / [all, "1-2".toList].length]? = some inst ∧
        [all, "1-2".toList][(2 - 1) % [all, "1-2".toList].length]? = some port ∧
        (⟨"i".toList, ⟨1, 2, .tcp⟩⟩ : OpenInstancePublicPortsInput).instanceName = inst ∧
        (openPorts (failingClient [] 2) 0 ["i".toList, "j".toList] [all, "1-2".toList]).outcome
          = .ok (some (.wrapped text (.sdk "boom".toList))) ∧
        Mentions text inst ∧ Mentions text port) :=
  ⟨⟨rfl, by decide, by decide⟩,
    openPorts_fail_fast (failingClient [] 2) 0 ["i".toList, "j".toList] [all, "1-2".toList]
      ["i".toList, "j".toList] 2 ⟨"i".toList, ⟨1, 2, .tcp⟩⟩ (.sdk "boom".toList)
      rfl (by decide) (by decide)⟩

/-- C7. With the selector `["all"]`, one listed instance and a client whose calls
    all succeed, the specification counts two open-ports calls for the comma list
    `80,443` and one for the single port `80`; the code makes one call (the range
    80..443) for the comma list, and none for the single port, where it panics
    after the list-instances call. -/
theorem openPorts_call_count_differs :
    (openPorts (okClient [some "a".toList]) () [all] ["80,443".toList]).events
      = [.getInstances, .openInstancePublicPorts ⟨"a".toList, ⟨80, 443, .tcp⟩⟩ none] ∧
    (openPorts (okClient [some "a".toList]) () [all] ["80,443".toList]).outcome = .ok none ∧
    (openPorts (okClient [some "a".toList]) () [all] ["80".toList]).events = [.getInstances] ∧
    (openPorts (okClient [some "a".toList]) () [all] ["80".toList]).outcome
      = .panic (.indexOutOfRange 1 1) := by
  decide

/-- C8, counterexample. For the range token `100-80` the request has
    `fromPort = 100 > toPort = 80`, and for `70000-80000` both ports exceed 65535. -/
theorem openPorts_range_not_validated :
    (openPorts (okClient []) () ["web".toList] ["100-80".toList, "70000-80000".toList]).events
      = [.openInstancePublicPorts ⟨"web".toList, ⟨100, 80, .tcp⟩⟩ none,
         .openInstancePublicPorts ⟨"web".toList, ⟨70000, 80000, .tcp⟩⟩ none] ∧
    ¬ ∀ c ∈ openCalls (openPorts (okClient []) () ["web".toList] ["100-80".toList]).events,
        0 ≤ c.1.portInfo.fromPort ∧ c.1.portInfo.fromPort ≤ c.1.portInfo.toPort ∧
        c.1.portInfo.toPort ≤ 65535 := by
  decide

/-- C8, amended. For every client, instance list and port-token list, every
    request that `openPorts` issues for a range token `A-B` whose two parts are
    plain decimal numbers with `0 <= A <= B <= 65535` has `fromPort = A`,
    `toPort = B`, hence `0 <= fromPort <= toPort <= 65535`. -/
theorem openPorts_ordered_range_bounds {σ : Type} (client : Client σ) (s : σ)
    (instanceNames ports : List Str) (j : Nat) (input : OpenInstancePublicPortsInput)
    (err : Option GoError) (a b : Str) (m n : Nat)
    (hcall : (openCalls (openPorts client s instanceNames ports).events)[j]? = some (input, err))
    (htoken : ports[j % ports.length]? = some (a ++ '-' :: b))
    (ha : IsPort a m) (hb : IsPort b n) (hmn : m ≤ n) :
    input.portInfo.fromPort = (m : Int) ∧ input.portInfo.toPort = (n : Int) ∧
    0 ≤ input.portInfo.fromPort ∧ input.portInfo.fromPort ≤ input.portInfo.toPort ∧
    input.portInfo.toPort ≤ 65535 := by
  obtain ⟨instances, inst, port, _, hp, hq⟩ :=
    openPorts_call_iteration client s instanceNames ports j input err hcall
  obtain ⟨_, h2⟩ := iterations_getElem? ports instances j inst port hp
  rw [htoken] at h2
  simp only [Option.some.injEq] at h2
  subst h2
  rw [requestFor_range inst a b m n ha hb] at hq
  simp only [Option.some.injEq] at hq
  subst hq
  have hn := hb.2.2
  refine ⟨rfl, rfl, ?_, ?_, ?_⟩
  · show (0 : Int) ≤ (m : Int)
    omega
  · show (m : Int) ≤ (n : Int)
    omega
  · show (n : Int) ≤ 65535
    omega

theorem openPorts_ordered_range_bounds_witness :
    ((openCalls (openPorts (okClient []) () ["web".toList] ["80-100".toList]).events)[0]?
        = some (⟨"web".toList, ⟨80, 100, .tcp⟩⟩, none) ∧
      ["80-100".toList][0 % ["80-100".toList].length]? = some ("80".toList ++ '-' :: "100".toList) ∧
      IsPort "80".toList 80 ∧ IsPort "100".toList 100 ∧ 80 ≤ 100) ∧
    ((⟨"web".toList, ⟨80, 100, .tcp⟩⟩ : OpenInstancePublicPortsInput).portInfo.fromPort
        = ((80 : Nat) : Int) ∧
      (⟨"web".toList, ⟨80, 100, .tcp⟩⟩ : OpenInstancePublicPortsInput).portInfo.toPort
        = ((100 : Nat) : Int) ∧
      0 ≤ (⟨"web".toList, ⟨80, 100, .tcp⟩⟩ : OpenInstancePublicPortsInput).portInfo.fromPort ∧
      (⟨"web".toList, ⟨80, 100, .tcp⟩⟩ : OpenInstancePublicPortsInput).portInfo.fromPort
        ≤ (⟨"web".toList, ⟨80, 100, .tcp⟩⟩ : OpenInstancePublicPortsInput).portInfo.toPort ∧
      (⟨"web".toList, ⟨80, 100, .tcp⟩⟩ : OpenInstancePublicPortsInput).portInfo.toPort ≤ 65535) :=
  ⟨by decide,
    openPorts_ordered_range_bounds (okClient []) () ["web".toList] ["80-100".toList] 0
      ⟨"web".toList, ⟨80, 100, .tcp⟩⟩ none "80".toList "100".toList 80 100
      (by decide) (by decide) (by decide) (by decide) (by decide)⟩

/-! ## What the code does when no token is bare -/

/-- The list-instances call: exactly one, and the first call, for the selector
    `["all"]`; none for any other instance list, whose names are used as given. -/
theorem openPorts_list_call {σ : Type} (client : Client σ) (s : σ)
    (instanceNames ports : List Str) :
    listCalls (openPorts client s instanceNames ports).events
      = (if instanceNames = [all] then 1 else 0) ∧
    (instanceNames = [all] →
      (openPorts client s instanceNames ports).events.head? = some .getInstances) ∧
    (instanceNames ≠ [all] →
      (resolveInstances client s instanceNames).2.2 = .ok instanceNames) := by
  have hev := resolveInstances_events client s instanceNames
  refine ⟨?_, fun hall => ?_, fun hne => by rw [resolveInstances_literal client s _ hne]⟩
  · rcases hr : (resolveInstances client s instanceNames).2.2 with e | instances
    · rw [(openPorts_error client s instanceNames ports e hr).1, hev]
      split <;> rfl
    · rw [openPorts_eq client s instanceNames ports instances hr, finish_events,
        listCalls_append, pairsLoop_listCalls, hev]
      split <;> rfl
  · rcases hr : (resolveInstances client s instanceNames).2.2 with e | instances
    · rw [(openPorts_error client s instanceNames ports e hr).1, hev, if_pos hall]
      rfl
    · rw [openPorts_eq client s instanceNames ports instances hr, finish_events, hev,
        if_pos hall]
      rfl

/-- With a client whose open-ports calls all succeed and a port list without
    bare tokens, `openPorts` returns nil after one call per instance and token,
    a comma list counting as one token. -/
theorem openPorts_call_count {σ : Type} (client : Client σ) (s : σ)
    (instanceNames ports instances : List Str)
    (hok : ∀ st input, (client.openInstancePublicPorts st input).2 = none)
    (hres : (resolveInstances client s instanceNames).2.2 = .ok instances)
    (hports : ∀ port ∈ ports, ¬ IsBare port) :
    (openPorts client s instanceNames ports).outcome = .ok none ∧
    (openCalls (openPorts client s instanceNames ports).events).length
      = instances.length * ports.length := by
  have hreq : ∀ x ∈ iterations instances ports, requestFor x.1 x.2 ≠ none := by
    intro x hx
    obtain ⟨j, hj⟩ := List.getElem?_of_mem hx
    obtain ⟨_, h2⟩ := iterations_getElem? ports instances j x.1 x.2 hj
    intro hnone
    exact hports x.2 (List.getElem?_mem h2) ((requestFor_eq_none_iff x.1 x.2).1 hnone)
  obtain ⟨hflow, _⟩ := pairsLoop_ok client hok (iterations instances ports)
    (resolveInstances client s instanceNames).1 hreq
  constructor
  · rw [openPorts_eq client s instanceNames ports instances hres, finish_outcome, hflow]
  · rw [openPorts_openCalls client s instanceNames ports instances hres,
      pairsLoop_next client _ _ hflow, iterations_length]

theorem openPorts_call_count_witness :
    ((∀ st input, ((okClient [some "a".toList, none]).openInstancePublicPorts st input).2 = none) ∧
      (resolveInstances (okClient [some "a".toList, none]) () [all]).2.2
        = .ok ["a".toList, []] ∧
      (∀ port ∈ [all, "80-100".toList, "80,443".toList], ¬ IsBare port)) ∧
    (openPorts (okClient [some "a".toList, none]) () [all]
        [all, "80-100".toList, "80,443".toList]).outcome = .ok none ∧
    (openCalls (openPorts (okClient [some "a".toList, none]) () [all]
        [all, "80-100".toList, "80,443".toList]).events).length
      = ["a".toList, []].length * [all, "80-100".toList, "80,443".toList].length :=
  ⟨⟨fun _ _ => rfl, rfl, by decide⟩,
    openPorts_call_count (okClient [some "a".toList, none]) () [all]
      [all, "80-100".toList, "80,443".toList] ["a".toList, []] (fun _ _ => rfl) rfl (by decide)⟩

end Lightsail
